import Mathlib

/-!
Shallow embedding of the `safe` vault client (package `vault`, plus the
`unseal` dispatch of `main.go`) and proofs of the specified properties.

HTTP traffic is modelled by oracles: a pure function answers each request
the code would issue, and stateful operations return an explicit trace of
the calls they made together with their result.
-/

set_option maxHeartbeats 1000000

namespace Safe

/-- The error taxonomy of the client.  `notFound` embeds the distinguished
`NotFound` sentinel value that callers compare against with `==`/`!=`;
`redirectLoop` is the `"redirection loop detected"` error of
`Vault.request`; `api` carries the status text of a non-2xx response;
`transport` is a network-layer error; `malformed` is the
`"malformed response from vault"` / JSON-unmarshal failure; `nothingToWrite`
is the `"nothing to write"` error of `Vault.Write`; `outOfFuel` models
divergence of the unbounded recursion in `Vault.Tree` (the Go code has no
cycle guard, so on a cyclic backend it would never return). -/
inductive VErr where
  | notFound : VErr
  | redirectLoop : VErr
  | api (status : String) : VErr
  | transport (msg : String) : VErr
  | malformed : VErr
  | nothingToWrite : VErr
  | outOfFuel : VErr
  deriving DecidableEq, Repr

instance instDecEqExcept {ε α : Type} [DecidableEq ε] [DecidableEq α] :
    DecidableEq (Except ε α) := fun x y =>
  match x, y with
  | Except.error a, Except.error b =>
    if h : a = b then isTrue (by rw [h])
    else isFalse (by intro hc; cases hc; exact h rfl)
  | Except.error _, Except.ok _ => isFalse (by intro hc; cases hc)
  | Except.ok _, Except.error _ => isFalse (by intro hc; cases hc)
  | Except.ok a, Except.ok b =>
    if h : a = b then isTrue (by rw [h])
    else isFalse (by intro hc; cases hc; exact h rfl)

/-- Result of one `v.Client.Do(req)` call, as seen by `Vault.request`:
either a network-layer error, or a response with a status code and a flag
telling whether the `Location` header (relevant only on 307) parses as a
URL (`url.Parse` succeeding). -/
inductive DoResult where
  | fail (msg : String) : DoResult
  | resp (status : Nat) (locParses : Bool) : DoResult
  deriving DecidableEq, Repr

/-- The retry loop of `Vault.request` (part_000 lines 92-124): up to 10
iterations; each iteration performs one `Client.Do`; a network error
propagates; a 307 re-parses the `Location` header (propagating a parse
error) and retries; any other status is returned.  Falling out of the loop
yields the `"redirection loop detected"` error.  The `responses` list
supplies the successive `Do` results. -/
def requestLoop : List DoResult → Nat → Except VErr Nat
  | _, 0 => Except.error VErr.redirectLoop
  | [], Nat.succ _ => Except.error (VErr.transport ("no response"))
  | DoResult.fail m :: _, Nat.succ _ => Except.error (VErr.transport m)
  | DoResult.resp status loc :: rest, Nat.succ fuel =>
    if status = 307 then
      if loc then requestLoop rest fuel
      else Except.error VErr.malformed
    else Except.ok status

/-- `Vault.request`, over the sequence of responses the underlying client
would deliver: the loop bound is the literal `10` of the source. -/
def request (responses : List DoResult) : Except VErr Nat :=
  requestLoop responses 10

/-- The response sequence of a request that sees `k` consecutive 307
redirects (each with a well-formed `Location`) followed by a 200. -/
def redirectsThen200 (k : Nat) : List DoResult :=
  List.replicate k (DoResult.resp 307 true) ++ [DoResult.resp 200 true]

theorem requestLoop_zero (l : List DoResult) :
    requestLoop l 0 = Except.error VErr.redirectLoop := by
  cases l with
  | nil => rfl
  | cons a t => cases a <;> rfl

theorem requestLoop_replicate (k : Nat) : ∀ (n : Nat) (rest : List DoResult),
    requestLoop (List.replicate k (DoResult.resp 307 true) ++ rest) n =
      if k < n then requestLoop rest (n - k) else Except.error VErr.redirectLoop := by
  induction k with
  | zero =>
    intro n rest
    cases n with
    | zero => rw [requestLoop_zero, if_neg (by omega)]
    | succ m => simp
  | succ k ih =>
    intro n rest
    cases n with
    | zero => rw [requestLoop_zero, if_neg (by omega)]
    | succ m =>
      rw [List.replicate_succ, List.cons_append]
      have h1 : requestLoop
          (DoResult.resp 307 true :: (List.replicate k (DoResult.resp 307 true) ++ rest))
          (Nat.succ m) = requestLoop (List.replicate k (DoResult.resp 307 true) ++ rest) m := by
        simp [requestLoop]
      rw [h1, ih m rest]
      by_cases h : k < m
      · rw [if_pos h, if_pos (by omega : k + 1 < m + 1), Nat.succ_sub_succ]
      · rw [if_neg h, if_neg (by omega : ¬ k + 1 < m + 1)]

end Safe

namespace Safe

/-- A node of the goutils `tree` package as used by `Vault.Tree`.
Modelled from the spec: the `tree.Node` type lives in an external
collaborator library; §3 describes it as "a tree element with a display
name, a full path, and an ordered sequence of child Nodes".  The `ns`
field is verification ghost state recording which branch of
`Vault.Tree`'s loop produced the node: `true` when it came from a listing
name ending in `/` (a sub-namespace, built by recursion) or is a recursion
root, `false` when it was attached as a leaf.  No computation reads it. -/
inductive TNode where
  | mk (name : String) (ns : Bool) (sub : List TNode) : TNode

def TNode.name : TNode → String
  | TNode.mk n _ _ => n

def TNode.ns : TNode → Bool
  | TNode.mk _ b _ => b

def TNode.sub : TNode → List TNode
  | TNode.mk _ _ s => s

/-- The oracle standing for `v.List`: what the backend listing returns for
each path. -/
abbrev ListOracle := String → Except VErr (List String)

/-- Go `p[len(p)-1:len(p)] == "/"`: does the name end in a slash?  (The Go
code compares the last byte; on the ASCII separator this is the last
character.) -/
def lastIsSlash (p : String) : Bool := p.data.getLast? == some '/'

/-- Go `p[0 : len(p)-1]`: the name without its trailing byte. -/
def stripLast (p : String) : String := String.mk p.data.dropLast

/-- One pass of the child-building loop of `Vault.Tree` (part_000 lines
270-299), with `vt` standing for the recursive `v.Tree` call one level
deeper.  A name ending in `/` denotes a sub-namespace: recurse on
`path + "/" + name-without-slash`, and append the subtree — renamed to
the slash-stripped name, as `kid.Name = name` does — only when it has at
least one child (`len(kid.Sub) > 0`); any other name is a leaf, appended
always.  An error from recursion aborts the whole loop.  (On an empty
listed name the Go code would panic at `p[len(p)-1:]`; listed names are
nonempty, and `lastIsSlash`/`stripLast` model the final-byte slicing.) -/
def buildKids (vt : String → Except VErr TNode) (path : String) :
    List String → Except VErr (List TNode)
  | [] => Except.ok []
  | p :: rest =>
    if lastIsSlash p then
      match vt (path ++ "/" ++ stripLast p) with
      | Except.error e => Except.error e
      | Except.ok kid =>
        match buildKids vt path rest with
        | Except.error e => Except.error e
        | Except.ok kids =>
          Except.ok
            (if kid.sub.length > 0 then TNode.mk (stripLast p) true kid.sub :: kids
             else kids)
    else
      match buildKids vt path rest with
      | Except.error e => Except.error e
      | Except.ok kids => Except.ok (TNode.mk p false [] :: kids)

/-- `Vault.Tree` (part_000 lines 258-301) with `ansify = false`, over a
listing oracle `L` standing for `v.List`, with an explicit recursion-depth
fuel: the Go recursion is unbounded and has no cycle guard, so exhausting
the fuel models divergence (never reached on a backend of bounded depth
when the fuel exceeds that depth). -/
def vtree (L : ListOracle) : Nat → String → Except VErr TNode
  | 0, _ => Except.error VErr.outOfFuel
  | Nat.succ fuel, path =>
    match L path with
    | Except.error e => Except.error e
    | Except.ok l =>
      match buildKids (vtree L fuel) path l with
      | Except.error e => Except.error e
      | Except.ok kids => Except.ok (TNode.mk path true kids)

/-- The pruning invariant, over a whole tree: every attached sub-namespace
node (`ns = true`), at any depth, has at least one child. -/
inductive Good : TNode → Prop where
  | mk (t : TNode) :
      (∀ c ∈ t.sub, c.ns = true → c.sub ≠ []) →
      (∀ c ∈ t.sub, Good c) →
      Good t

theorem Good.flat {t : TNode} (h : Good t) : ∀ c ∈ t.sub, c.ns = true → c.sub ≠ [] := by
  cases h with
  | mk _ h1 _ => exact h1

theorem Good.kids {t : TNode} (h : Good t) : ∀ c ∈ t.sub, Good c := by
  cases h with
  | mk _ _ h2 => exact h2

theorem Good.rename {t : TNode} (h : Good t) (n : String) (b : Bool) :
    Good (TNode.mk n b t.sub) := by
  cases h with
  | mk _ h1 h2 => exact Good.mk _ h1 h2

/-- Every node produced by the child-building loop satisfies the pruning
invariant, and carries a nonempty child list whenever it is a
sub-namespace node — provided the recursive builder only returns Good
trees. -/
theorem buildKids_good (vt : String → Except VErr TNode)
    (hv : ∀ p t, vt p = Except.ok t → Good t) (path : String) :
    ∀ (l : List String) (kids : List TNode),
      buildKids vt path l = Except.ok kids →
      ∀ c ∈ kids, (c.ns = true → c.sub ≠ []) ∧ Good c := by
  intro l
  induction l with
  | nil =>
    intro kids h c hc
    simp only [buildKids] at h
    cases h
    simp at hc
  | cons p rest ih =>
    intro kids h c hc
    simp only [buildKids] at h
    by_cases hp : lastIsSlash p = true
    · rw [if_pos hp] at h
      cases hkid : vt (path ++ "/" ++ stripLast p) with
      | error e => rw [hkid] at h; cases h
      | ok kid =>
        rw [hkid] at h
        cases hrest : buildKids vt path rest with
        | error e => rw [hrest] at h; cases h
        | ok kids2 =>
          rw [hrest] at h
          cases h
          have hkidGood : Good kid := hv _ _ hkid
          by_cases hlen : kid.sub.length > 0
          · rw [if_pos hlen] at hc
            cases hc with
            | head =>
              refine ⟨fun _ => ?_, Good.rename hkidGood _ _⟩
              intro hnil
              rw [show (TNode.mk (stripLast p) true kid.sub).sub = kid.sub from rfl] at hnil
              rw [hnil] at hlen
              simp at hlen
            | tail _ hmem => exact ih kids2 hrest c hmem
          · rw [if_neg hlen] at hc
            exact ih kids2 hrest c hc
    · rw [if_neg hp] at h
      cases hrest : buildKids vt path rest with
      | error e => rw [hrest] at h; cases h
      | ok kids2 =>
        rw [hrest] at h
        cases h
        cases hc with
        | head =>
          refine ⟨?_, ?_⟩
          · intro hns
            cases hns
          · exact Good.mk _ (by intro c hc; cases hc) (by intro c hc; cases hc)
        | tail _ hmem => exact ih kids2 hrest c hmem

/-- Every tree `Vault.Tree` returns satisfies the pruning invariant. -/
theorem vtree_good : ∀ (fuel : Nat) (L : ListOracle) (path : String) (t : TNode),
    vtree L fuel path = Except.ok t → Good t := by
  intro fuel
  induction fuel with
  | zero => intro L path t h; cases h
  | succ fuel ih =>
    intro L path t h
    simp only [vtree] at h
    split at h
    · cases h
    rename_i l hL
    split at h
    · cases h
    rename_i kids hk
    cases h
    have := buildKids_good (vtree L fuel) (fun p t => ih L p t) path l kids hk
    exact Good.mk _ (fun c hc => (this c hc).1) (fun c hc => (this c hc).2)

/-- In the child-building loop, a listed name that does not end in `/` (a
leaf) is always attached, as a childless leaf node. -/
theorem buildKids_leaf_mem (vt : String → Except VErr TNode) (path : String) :
    ∀ (l : List String) (kids : List TNode),
      buildKids vt path l = Except.ok kids →
      ∀ p ∈ l, lastIsSlash p = false → TNode.mk p false [] ∈ kids := by
  intro l
  induction l with
  | nil => intro kids _ p hp; simp at hp
  | cons q rest ih =>
    intro kids h p hp hslash
    simp only [buildKids] at h
    by_cases hq : lastIsSlash q = true
    · rw [if_pos hq] at h
      cases hkid : vt (path ++ "/" ++ stripLast q) with
      | error e => rw [hkid] at h; cases h
      | ok kid =>
        rw [hkid] at h
        cases hrest : buildKids vt path rest with
        | error e => rw [hrest] at h; cases h
        | ok kids2 =>
          rw [hrest] at h
          cases h
          have hpr : p ∈ rest := by
            cases hp with
            | head => rw [hq] at hslash; cases hslash
            | tail _ hmem => exact hmem
          have := ih kids2 hrest p hpr hslash
          by_cases hlen : kid.sub.length > 0
          · rw [if_pos hlen]; exact List.mem_cons_of_mem _ this
          · rw [if_neg hlen]; exact this
    · rw [if_neg hq] at h
      cases hrest : buildKids vt path rest with
      | error e => rw [hrest] at h; cases h
      | ok kids2 =>
        rw [hrest] at h
        cases h
        cases hp with
        | head => exact List.mem_cons_self _ _
        | tail _ hmem => exact List.mem_cons_of_mem _ (ih kids2 hrest p hmem hslash)

/-- C1: a request that receives `k` consecutive HTTP 307 redirect responses
followed by a 200 succeeds (returning the 200) iff `k < 10`; once 10
consecutive 307 responses have been received, the call fails with the
"redirection loop detected" error. -/
theorem request_redirects_iff (k : Nat) :
    request (redirectsThen200 k) =
      if k < 10 then Except.ok 200 else Except.error VErr.redirectLoop := by
  unfold request redirectsThen200
  rw [requestLoop_replicate]
  by_cases h : k < 10
  · rw [if_pos h, if_pos h]
    have h10 : 0 < 10 - k := Nat.sub_pos_of_lt h
    cases h9 : 10 - k with
    | zero => omega
    | succ m => simp [requestLoop]
  · rw [if_neg h, if_neg h]

/-- C2: for every path for which `Tree` returns without error, no node of
the returned tree is a sub-namespace node with zero children (`Good`): a
sub-namespace child is attached to its parent only when its recursively
built subtree has at least one child, while a leaf child (a listed name
without a trailing slash) is always attached. -/
theorem tree_no_empty_namespace (L : ListOracle) (fuel : Nat) (path : String)
    (t : TNode) (h : vtree L fuel path = Except.ok t) :
    Good t ∧
      ∀ l, L path = Except.ok l →
        ∀ p ∈ l, lastIsSlash p = false → TNode.mk p false [] ∈ t.sub := by
  refine ⟨vtree_good fuel L path t h, ?_⟩
  intro l hL p hp hslash
  cases fuel with
  | zero => cases h
  | succ fuel =>
    simp only [vtree, hL] at h
    split at h
    · cases h
    rename_i kids hk
    cases h
    exact buildKids_leaf_mem (vtree L fuel) path l kids hk p hp hslash

/-- The backend of the spec's concrete example: `list("secret")` returns
`["a", "b/"]` and `list("secret/b")` returns `["c"]`. -/
def demoList : ListOracle := fun p =>
  if p = "secret" then Except.ok ["a", "b/"]
  else if p = "secret/b" then Except.ok ["c"]
  else Except.ok []

/-- The tree the example builds: a leaf child `a` and a namespace child
`b` with one leaf child `c`. -/
def demoTree : TNode :=
  TNode.mk "secret" true
    [TNode.mk "a" false [], TNode.mk "b" true [TNode.mk "c" false []]]

theorem tree_no_empty_namespace_witness :
    Good demoTree ∧
      ∀ l, demoList "secret" = Except.ok l →
        ∀ p ∈ l, lastIsSlash p = false →
          TNode.mk p false [] ∈ demoTree.sub :=
  tree_no_empty_namespace demoList 3 "secret" demoTree (by rfl)

mutual

/-- `tree.Node.Paths(sep)` of the goutils tree library.  Modelled from the
spec: "`paths(node, separator)` produces a lazy, finite, pre-order
sequence of fully qualified leaf paths (namespace node names joined with
`separator`)", with the spec's concrete example `paths("/")` on
`tree("secret")` yielding `["secret/a", "secret/b/c"]`. -/
def pathsOf (sep : String) : TNode → List String
  | TNode.mk name _ [] => [name]
  | TNode.mk name _ (c :: cs) =>
    (pathsListOf sep (c :: cs)).map (fun s => name ++ sep ++ s)

/-- Pre-order concatenation of `pathsOf` over a list of sibling nodes. -/
def pathsListOf (sep : String) : List TNode → List String
  | [] => []
  | c :: cs => pathsOf sep c ++ pathsListOf sep cs

end

/-- The oracle standing for `v.Delete` on a single path. -/
abbrev DeleteOracle := String → Except VErr Unit

/-- The deletion loop of `Vault.DeleteTree` (part_000 lines 336-341): one
`v.Delete` per path, in order, returning on the first error.  The result
is the list of paths for which a delete call was actually issued, paired
with the error, if any. -/
def deleteSeq (del : DeleteOracle) : List String → List String × Option VErr
  | [] => ([], none)
  | p :: rest =>
    match del p with
    | Except.error e => ([p], some e)
    | Except.ok _ =>
      let r := deleteSeq del rest
      (p :: r.1, r.2)

/-- `Vault.DeleteTree` (part_000 lines 331-343): build the (non-decorated)
tree at `root`, delete each of its leaf paths in `Paths("/")` order, then
delete `root` itself.  Returns the delete calls issued and the first
error. -/
def DeleteTree (L : ListOracle) (del : DeleteOracle) (fuel : Nat)
    (root : String) : List String × Option VErr :=
  match vtree L fuel root with
  | Except.error e => ([], some e)
  | Except.ok t =>
    let r := deleteSeq del (pathsOf "/" t)
    match r.2 with
    | some e => (r.1, some e)
    | none =>
      match del root with
      | Except.error e => (r.1 ++ [root], some e)
      | Except.ok _ => (r.1 ++ [root], none)

theorem deleteSeq_all_ok (del : DeleteOracle) :
    ∀ (l : List String), (∀ p ∈ l, del p = Except.ok ()) →
      deleteSeq del l = (l, none) := by
  intro l
  induction l with
  | nil => intro _; rfl
  | cons p rest ih =>
    intro hall
    have hp : del p = Except.ok () := hall p (List.mem_cons_self _ _)
    simp only [deleteSeq, hp, ih (fun q hq => hall q (List.mem_cons_of_mem _ hq))]

theorem deleteSeq_first_fail (del : DeleteOracle) :
    ∀ (pre : List String) (p : String) (post : List String) (e : VErr),
      (∀ q ∈ pre, del q = Except.ok ()) → del p = Except.error e →
      deleteSeq del (pre ++ p :: post) = (pre ++ [p], some e) := by
  intro pre
  induction pre with
  | nil =>
    intro p post e _ hp
    simp only [List.nil_append, deleteSeq, hp]
  | cons q rest ih =>
    intro p post e hall hp
    have hq : del q = Except.ok () := hall q (List.mem_cons_self _ _)
    simp only [List.cons_append, deleteSeq, hq, List.append_eq,
      ih p post e (fun x hx => hall x (List.mem_cons_of_mem _ hx)) hp]

/-- C3: for every root whose tree builds successfully, with `n` leaf paths
in the tree's pre-order `Paths("/")` sequence: when all deletes succeed,
`DeleteTree` issues exactly the `n + 1` delete calls `Paths ++ [root]`
(one per leaf, in pre-order, then one for the root) and succeeds; and on
the first failing delete it returns that error immediately, the issued
calls being exactly the successful ones followed by the failing one — no
further deletes, and nothing that would undo the deletions already
performed. -/
theorem deleteTree_calls (L : ListOracle) (del : DeleteOracle) (fuel : Nat)
    (root : String) (t : TNode) (h : vtree L fuel root = Except.ok t) :
    ((∀ p, del p = Except.ok ()) →
        DeleteTree L del fuel root = (pathsOf "/" t ++ [root], none) ∧
        (DeleteTree L del fuel root).1.length = (pathsOf "/" t).length + 1)
    ∧ (∀ pre p post e, pathsOf "/" t = pre ++ p :: post →
        (∀ q ∈ pre, del q = Except.ok ()) → del p = Except.error e →
        DeleteTree L del fuel root = (pre ++ [p], some e)) := by
  constructor
  · intro hall
    have h1 : deleteSeq del (pathsOf "/" t) = (pathsOf "/" t, none) :=
      deleteSeq_all_ok del _ (fun p _ => hall p)
    have h2 : DeleteTree L del fuel root = (pathsOf "/" t ++ [root], none) := by
      simp only [DeleteTree, h, h1, hall root]
    refine ⟨h2, ?_⟩
    rw [h2]
    simp
  · intro pre p post e hsplit hpre hp
    have h1 : deleteSeq del (pathsOf "/" t) = (pre ++ [p], some e) := by
      rw [hsplit]
      exact deleteSeq_first_fail del pre p post e hpre hp
    simp only [DeleteTree, h, h1]

/-- A delete oracle that fails on `secret/b/c` with an API error. -/
def demoDel : DeleteOracle := fun q =>
  if q = "secret/b/c" then Except.error (VErr.api ("500")) else Except.ok ()

theorem deleteTree_calls_witness :
    DeleteTree demoList (fun _ => Except.ok ()) 3 "secret"
        = (["secret/a", "secret/b/c", "secret"], none)
    ∧ DeleteTree demoList demoDel 3 "secret"
        = (["secret/a", "secret/b/c"], some (VErr.api ("500"))) := by
  constructor
  · exact (((deleteTree_calls demoList (fun _ => Except.ok ()) 3 "secret"
      demoTree (by rfl)).1 (fun p => rfl)).1).trans (by rfl)
  · exact ((deleteTree_calls demoList demoDel 3 "secret" demoTree (by rfl)).2
      ["secret/a"] "secret/b/c" [] (VErr.api ("500")) (by rfl)
      (by
        intro q hq
        have hq2 : q = "secret/a" := by simpa using hq
        subst hq2
        rfl)
      (by rfl)).trans (by rfl)

/-- Locate the first occurrence of `pat` in a character list: returns the
characters before the match and the characters after it. -/
def splitAtFirst (pat : List Char) : List Char → Option (List Char × List Char)
  | [] => if pat = [] then some ([], []) else none
  | c :: t =>
    if pat.isPrefixOf (c :: t) then some ([], (c :: t).drop pat.length)
    else
      match splitAtFirst pat t with
      | none => none
      | some (a, b) => some (c :: a, b)

/-- Go `strings.Replace(s, pat, rep, 1)`: replace the first occurrence of
`pat` in `s` by `rep`; if `pat` does not occur, return `s` unchanged (an
empty `pat` matches at the start, yielding `rep + s`). -/
def replaceFirst (s pat rep : String) : String :=
  match splitAtFirst pat.data s.data with
  | none => s
  | some (a, b) => String.mk (a ++ rep.data ++ b)

/-- The oracle standing for the `op` callback of `MoveCopyTree` (either
`v.Copy` or `v.Move`). -/
abbrev OpOracle := String → String → Except VErr Unit

/-- The oracle standing for `v.Read`, at the granularity `MoveCopyTree`
needs: the result of reading a path, where `Except.error VErr.notFound`
embeds Go's `NotFound` sentinel that the code compares against with
`!=`. -/
abbrev ReadOracle := String → Except VErr (List (String × String))

/-- The per-leaf loop of `Vault.MoveCopyTree` (part_000 lines 382-388):
for each path, derive the destination by replacing the first occurrence of
`oldRoot` with `newRoot` and invoke `f`, returning on the first error.
The result pairs the `(src, dst)` invocations actually made with the
error, if any. -/
def opSeq (f : OpOracle) (oldRoot newRoot : String) :
    List String → List (String × String) × Option VErr
  | [] => ([], none)
  | p :: rest =>
    let np := replaceFirst p oldRoot newRoot
    match f p np with
    | Except.error e => ([(p, np)], some e)
    | Except.ok _ =>
      let r := opSeq f oldRoot newRoot rest
      ((p, np) :: r.1, r.2)

/-- `Vault.MoveCopyTree` (part_000 lines 377-394): build the tree at
`oldRoot`, run `f` over its leaf paths, then — unless a direct read of
`oldRoot` yields the `NotFound` sentinel (`err != NotFound` in the
source, so a read that fails some other way also takes this branch) —
additionally invoke `f(oldRoot, newRoot)`. -/
def MoveCopyTree (L : ListOracle) (rd : ReadOracle) (f : OpOracle)
    (fuel : Nat) (oldRoot newRoot : String) :
    List (String × String) × Option VErr :=
  match vtree L fuel oldRoot with
  | Except.error e => ([], some e)
  | Except.ok t =>
    let r := opSeq f oldRoot newRoot (pathsOf "/" t)
    match r.2 with
    | some e => (r.1, some e)
    | none =>
      if rd oldRoot = Except.error VErr.notFound then (r.1, none)
      else
        match f oldRoot newRoot with
        | Except.error e => (r.1 ++ [(oldRoot, newRoot)], some e)
        | Except.ok _ => (r.1 ++ [(oldRoot, newRoot)], none)

theorem opSeq_all_ok (f : OpOracle) (oldRoot newRoot : String) :
    ∀ (l : List String),
      (∀ p ∈ l, f p (replaceFirst p oldRoot newRoot) = Except.ok ()) →
      opSeq f oldRoot newRoot l =
        (l.map (fun p => (p, replaceFirst p oldRoot newRoot)), none) := by
  intro l
  induction l with
  | nil => intro _; rfl
  | cons p rest ih =>
    intro hall
    have hp := hall p (List.mem_cons_self _ _)
    simp only [opSeq, hp, ih (fun q hq => hall q (List.mem_cons_of_mem _ hq)),
      List.map_cons]

theorem opSeq_first_fail (f : OpOracle) (oldRoot newRoot : String) :
    ∀ (pre : List String) (p : String) (post : List String) (e : VErr),
      (∀ q ∈ pre, f q (replaceFirst q oldRoot newRoot) = Except.ok ()) →
      f p (replaceFirst p oldRoot newRoot) = Except.error e →
      opSeq f oldRoot newRoot (pre ++ p :: post) =
        (pre.map (fun q => (q, replaceFirst q oldRoot newRoot))
          ++ [(p, replaceFirst p oldRoot newRoot)], some e) := by
  intro pre
  induction pre with
  | nil =>
    intro p post e _ hp
    simp only [List.nil_append, opSeq, hp, List.map_nil]
  | cons q rest ih =>
    intro p post e hall hp
    have hq := hall q (List.mem_cons_self _ _)
    simp only [List.cons_append, opSeq, hq, List.append_eq, List.map_cons,
      ih p post e (fun x hx => hall x (List.mem_cons_of_mem _ hx)) hp]

/-- C4: for every `oldRoot`, `newRoot` and `op` whose tree at `oldRoot`
builds as `t`: if every per-leaf `op` succeeds, `MoveCopyTree` invokes
exactly `op(L, replaceFirst(L, oldRoot, newRoot))` for each leaf path `L`
of the tree in order, followed by one additional `op(oldRoot, newRoot)`
iff the direct read of `oldRoot` does not yield the `NotFound` sentinel
("resolves to an actual secret, not merely absent/NotFound"); and the
first failing `op` aborts the remaining sequence: the invocations made
are exactly the successful ones followed by the failing one, with its
error returned and nothing rolled back. -/
theorem moveCopyTree_spec (L : ListOracle) (rd : ReadOracle) (f : OpOracle)
    (fuel : Nat) (oldRoot newRoot : String) (t : TNode)
    (h : vtree L fuel oldRoot = Except.ok t) :
    ((∀ p ∈ pathsOf "/" t, f p (replaceFirst p oldRoot newRoot) = Except.ok ()) →
        MoveCopyTree L rd f fuel oldRoot newRoot =
          ((pathsOf "/" t).map (fun p => (p, replaceFirst p oldRoot newRoot))
              ++ (if rd oldRoot = Except.error VErr.notFound then []
                  else [(oldRoot, newRoot)]),
            if rd oldRoot = Except.error VErr.notFound then none
            else
              match f oldRoot newRoot with
              | Except.error e => some e
              | Except.ok _ => none))
    ∧ (∀ pre p post e, pathsOf "/" t = pre ++ p :: post →
        (∀ q ∈ pre, f q (replaceFirst q oldRoot newRoot) = Except.ok ()) →
        f p (replaceFirst p oldRoot newRoot) = Except.error e →
        MoveCopyTree L rd f fuel oldRoot newRoot =
          (pre.map (fun q => (q, replaceFirst q oldRoot newRoot))
            ++ [(p, replaceFirst p oldRoot newRoot)], some e)) := by
  constructor
  · intro hall
    have h1 := opSeq_all_ok f oldRoot newRoot _ hall
    by_cases hrd : rd oldRoot = Except.error VErr.notFound
    · simp only [MoveCopyTree, h, h1, if_pos hrd, List.append_nil]
    · simp only [MoveCopyTree, h, h1, if_neg hrd]
      cases hf : f oldRoot newRoot <;> simp
  · intro pre p post e hsplit hpre hp
    have h1 : opSeq f oldRoot newRoot (pathsOf "/" t) =
        (pre.map (fun q => (q, replaceFirst q oldRoot newRoot))
          ++ [(p, replaceFirst p oldRoot newRoot)], some e) := by
      rw [hsplit]
      exact opSeq_first_fail f oldRoot newRoot pre p post e hpre hp
    simp only [MoveCopyTree, h, h1]

/-- A read oracle under which `secret` itself holds data and every other
path is absent. -/
def demoRead : ReadOracle := fun p =>
  if p = "secret" then Except.ok [("k", "v")] else Except.error VErr.notFound

theorem moveCopyTree_spec_witness :
    MoveCopyTree demoList demoRead (fun _ _ => Except.ok ()) 3 "secret" "new" =
      ([("secret/a", "new/a"), ("secret/b/c", "new/b/c"), ("secret", "new")],
        none) := by
  have h := (moveCopyTree_spec demoList demoRead (fun _ _ => Except.ok ()) 3
    "secret" "new" demoTree (by rfl)).1 (fun p _ => rfl)
  exact h.trans (by rfl)

/-- A secret: the unordered key/value mapping of the `Secret` type
(`map[string]string` in Go), as an association list. -/
abbrev Secret := List (String × String)

/-- Modelled from the spec: `Secret.JSON()` lives in a source file of this
repository that is not under src/ (only its callers are).  Per §4.3,
"Writing an empty secret (no keys at all) is rejected with a 'nothing to
write' error", and `Vault.Write` implements that rejection by the test
`raw == ""`: so the serialization of a secret with zero keys is the empty
string, and of any other secret its (nonempty) JSON object text. -/
def Secret.JSON : Secret → String
  | [] => ""
  | kv :: rest =>
    "\x7b" ++
      String.intercalate ", "
        ((kv :: rest).map
          (fun x => "\"" ++ x.1 ++ "\": \"" ++ x.2 ++ "\"")) ++ "\x7d"

/-- Go `strings.SplitN(path, ":", 2)` on character lists: the part before
the first colon, and — when a colon occurs — everything after it. -/
def splitColonData : List Char → List Char × Option (List Char)
  | [] => ([], none)
  | c :: t =>
    if c = ':' then ([], some t)
    else
      let r := splitColonData t
      (c :: r.1, r.2)

/-- The path/key split performed at the top of `Vault.Read` (part_000
lines 139-144): `path` before the first colon, and the optional key
selector after it. -/
def splitColon (path : String) : String × Option String :=
  let r := splitColonData path.data
  (String.mk r.1, r.2.map String.mk)

/-- The key filter of `Vault.Read` (part_000 line 179): a pair with key
`k` is kept iff `(key != "" && k == key) || key == ""`, with `key?` the
optional selector from `splitColon` (absent meaning no colon, hence no
filtering). -/
def keepKey (key? : Option String) (k : String) : Bool :=
  match key? with
  | none => true
  | some key => (decide (key ≠ "") && decide (k = key)) || decide (key = "")

/-- The remote flat store: which secret, if any, each raw path holds. -/
abbrev Store := String → Option Secret

/-- Fault injection for the store-level model: a `some e` entry makes the
corresponding HTTP operation on that path fail with `e` instead of
succeeding (transport failures, non-2xx statuses and, for reads, non-404
errors are all folded into the injected error). -/
structure Faults where
  readErr : String → Option VErr
  writeErr : String → Option VErr
  deleteErr : String → Option VErr

/-- One HTTP side effect of the store-level operations. -/
inductive StoreEvent where
  | read (path : String) : StoreEvent
  | write (path : String) : StoreEvent
  | del (path : String) : StoreEvent
  deriving DecidableEq, Repr

/-- `Vault.Read` (part_000 lines 138-197) over the store: split the
optional `:key` selector off the path, `GET` the path part (absence is
the `NotFound` sentinel), and filter the returned pairs by the
selector. -/
def readStore (F : Faults) (st : Store) (path : String) : Except VErr Secret :=
  let pk := splitColon path
  match F.readErr pk.1 with
  | some e => Except.error e
  | none =>
    match st pk.1 with
    | none => Except.error VErr.notFound
    | some s => Except.ok (s.filter (fun kv => keepKey pk.2 kv.1))

/-- `Vault.Write` (part_000 lines 304-329) over the store: an empty
serialization is rejected with the `"nothing to write"` error before any
network call (the event trace stays empty); otherwise one `POST` is
issued, updating the store on success. -/
def writeStore (F : Faults) (st : Store) (path : String) (s : Secret) :
    Store × List StoreEvent × Except VErr Unit :=
  if s.JSON = "" then (st, [], Except.error VErr.nothingToWrite)
  else
    match F.writeErr path with
    | some e => (st, [StoreEvent.write path], Except.error e)
    | none =>
      (fun q => if q = path then some s else st q,
        [StoreEvent.write path], Except.ok ())

/-- `Vault.Delete` (part_000 lines 346-366) over the store: one `DELETE`,
removing the path on success. -/
def deleteStore (F : Faults) (st : Store) (path : String) :
    Store × List StoreEvent × Except VErr Unit :=
  match F.deleteErr path with
  | some e => (st, [StoreEvent.del path], Except.error e)
  | none =>
    (fun q => if q = path then none else st q,
      [StoreEvent.del path], Except.ok ())

/-- `Vault.Copy` (part_000 lines 369-375): read `oldpath` (any read
error, `NotFound` included, propagates) and write the result to
`newpath`. -/
def copyStore (F : Faults) (st : Store) (oldpath newpath : String) :
    Store × List StoreEvent × Except VErr Unit :=
  match readStore F st oldpath with
  | Except.error e => (st, [StoreEvent.read oldpath], Except.error e)
  | Except.ok s =>
    let r := writeStore F st newpath s
    (r.1, StoreEvent.read oldpath :: r.2.1, r.2.2)

/-- `Vault.Move` (part_000 lines 397-407): `Copy(oldpath, newpath)`, and
only if that succeeded, `Delete(oldpath)`; either error propagates. -/
def moveStore (F : Faults) (st : Store) (oldpath newpath : String) :
    Store × List StoreEvent × Except VErr Unit :=
  let c := copyStore F st oldpath newpath
  match c.2.2 with
  | Except.error e => (c.1, c.2.1, Except.error e)
  | Except.ok _ =>
    let d := deleteStore F c.1 oldpath
    (d.1, c.2.1 ++ d.2.1, d.2.2)

theorem copyStore_error_store (F : Faults) (st : Store)
    (oldpath newpath : String) (e : VErr)
    (h : (copyStore F st oldpath newpath).2.2 = Except.error e) :
    (copyStore F st oldpath newpath).1 = st := by
  cases hr : readStore F st oldpath with
  | error e2 => simp only [copyStore, hr]
  | ok s =>
    simp only [copyStore, hr] at h ⊢
    by_cases hj : s.JSON = ""
    · simp only [writeStore, if_pos hj]
    · simp only [writeStore, if_neg hj] at h ⊢
      cases hw : F.writeErr newpath with
      | some e2 => simp only [hw]
      | none => simp only [hw] at h; cases h

theorem copyStore_no_delete (F : Faults) (st : Store)
    (oldpath newpath : String) :
    ∀ p, StoreEvent.del p ∉ (copyStore F st oldpath newpath).2.1 := by
  intro p
  cases hr : readStore F st oldpath with
  | error e => simp [copyStore, hr]
  | ok s =>
    simp only [copyStore, hr]
    by_cases hj : s.JSON = ""
    · simp [writeStore, if_pos hj]
    · simp only [writeStore, if_neg hj]
      cases hw : F.writeErr newpath <;> simp [hw]

theorem filter_keep_all (s : Secret) :
    s.filter (fun kv => keepKey none kv.1) = s := by
  induction s with
  | nil => rfl
  | cons kv rest ih => simp [List.filter, keepKey, ih]

/-- C5: `Move(oldpath, newpath)` is `Copy(oldpath, newpath)` followed by
`Delete(oldpath)` and is not atomic: when the copy succeeds (the source
holds `s`, serialized nonempty, and the destination write goes through)
and the delete then fails, `Move` returns the delete error and the secret
remains readable at both the source and the destination path; and when
the copy fails, `Move` returns the copy error with the store untouched
and no delete call ever attempted. -/
theorem move_not_atomic (F : Faults) (st : Store) (oldpath newpath : String) :
    (∀ s, splitColon oldpath = (oldpath, none) →
      splitColon newpath = (newpath, none) →
      F.readErr oldpath = none → F.readErr newpath = none →
      st oldpath = some s → s.JSON ≠ "" → F.writeErr newpath = none →
      ∀ e, F.deleteErr oldpath = some e →
        (moveStore F st oldpath newpath).2.2 = Except.error e ∧
        readStore F (moveStore F st oldpath newpath).1 oldpath = Except.ok s ∧
        readStore F (moveStore F st oldpath newpath).1 newpath = Except.ok s)
    ∧ (∀ e, (copyStore F st oldpath newpath).2.2 = Except.error e →
        moveStore F st oldpath newpath =
          (st, (copyStore F st oldpath newpath).2.1, Except.error e) ∧
        ∀ p, StoreEvent.del p ∉ (moveStore F st oldpath newpath).2.1) := by
  constructor
  · intro s hso hsn hro hrn hst hjson hw e hde
    have hrs : readStore F st oldpath = Except.ok s := by
      simp only [readStore, hso, hro, hst, filter_keep_all]
    have hmv : moveStore F st oldpath newpath =
        ((fun q => if q = newpath then some s else st q),
          [StoreEvent.read oldpath, StoreEvent.write newpath,
            StoreEvent.del oldpath],
          Except.error e) := by
      simp [moveStore, copyStore, hrs, writeStore, if_neg hjson, hw,
        deleteStore, hde]
    have hst1o : (if oldpath = newpath then some s else st oldpath) = some s := by
      by_cases heq : oldpath = newpath
      · rw [if_pos heq]
      · rw [if_neg heq, hst]
    refine ⟨by rw [hmv], ?_, ?_⟩
    · rw [hmv]
      simp only [readStore, hso, hro]
      rw [hst1o]
      simp [filter_keep_all]
    · rw [hmv]
      simp only [readStore, hsn, hrn]
      simp [filter_keep_all]
  · intro e hc
    refine ⟨?_, ?_⟩
    · have h1 := copyStore_error_store F st oldpath newpath e hc
      cases hcc : (copyStore F st oldpath newpath).2.2 with
      | error e2 =>
        rw [hcc] at hc
        cases hc
        simp only [moveStore, hcc, h1]
      | ok u => rw [hcc] at hc; cases hc
    · intro p
      cases hcc : (copyStore F st oldpath newpath).2.2 with
      | error e2 =>
        simp only [moveStore, hcc]
        exact copyStore_no_delete F st oldpath newpath p
      | ok u => rw [hcc] at hc; cases hc

/-- The store of the spec's concrete example: the secret lives at `x`. -/
def demoStore : Store := fun p =>
  if p = "x" then some [("k", "v")] else none

/-- Faults for the example: deleting `x` fails with an API error;
everything else succeeds. -/
def demoFaults : Faults where
  readErr := fun _ => none
  writeErr := fun _ => none
  deleteErr := fun p =>
    if p = "x" then some (VErr.api ("500")) else none

theorem move_not_atomic_witness :
    (moveStore demoFaults demoStore "x" "y").2.2 =
        Except.error (VErr.api ("500")) ∧
      readStore demoFaults (moveStore demoFaults demoStore "x" "y").1 "x" =
        Except.ok [("k", "v")] ∧
      readStore demoFaults (moveStore demoFaults demoStore "x" "y").1 "y" =
        Except.ok [("k", "v")] :=
  (move_not_atomic demoFaults demoStore "x" "y").1 [("k", "v")]
    (by rfl) (by rfl) (by rfl) (by rfl) (by rfl) (by decide) (by rfl)
    (VErr.api ("500")) (by rfl)

/-- C6: for every path (and any backend behavior), writing a secret with
zero keys fails with the "nothing to write" error and issues no network
call: the event trace is empty and the store is untouched. -/
theorem write_empty_secret (F : Faults) (st : Store) (path : String) :
    writeStore F st path [] = (st, [], Except.error VErr.nothingToWrite) := by
  rfl

/-- The decoded shape of a response body, at the granularity the two JSON
decodings in `Vault.Read` and `Vault.List` see it: `malformed` models a
`json.Unmarshal` failure; `pairs` is the `data` object as a key/value map
(absent when there is no `data` key or it is not an object — the
"malformed response from vault" case of `Read`); `keys` is the
`data.keys` string array when present (absent decodes to the zero value,
an empty slice, in `List`). -/
structure VBody where
  malformed : Bool
  pairs : Option (List (String × String))
  keys : Option (List String)

/-- Result of `v.request` for one endpooint: a request-level error, or a
status code with a decoded body. -/
inductive HResp where
  | fail (msg : String) : HResp
  | resp (status : Nat) (body : VBody) : HResp

/-- The oracle standing for the backend: first argument `true` selects
the `?list=1` listing endpoint, `false` the plain read, on the given
path. -/
abbrev HttpOracle := Bool → String → HResp

/-- The keys decoding of `Vault.List` (part_000 lines 239-248):
`struct{ Data struct{ Keys []string } }`, where an absent `data.keys`
decodes to the zero value (no children). -/
def parseKeys (b : VBody) : Except VErr (List String) :=
  if b.malformed then Except.error VErr.malformed
  else Except.ok (b.keys.getD [])

/-- `Vault.List` (part_000 lines 202-249): `GET path?list=1`; a 200 is
decoded for keys; a 404 falls back to a plain `GET path` on the exact
same path, whose 200 is decoded the same way (a leaf body carries no
`data.keys`, hence zero children), whose 404 becomes the `NotFound`
sentinel, and any other status an API error. -/
def ListV (H : HttpOracle) (path : String) : Except VErr (List String) :=
  match H true path with
  | HResp.fail m => Except.error (VErr.transport m)
  | HResp.resp status body =>
    if status = 200 then parseKeys body
    else if status = 404 then
      match H false path with
      | HResp.fail m => Except.error (VErr.transport m)
      | HResp.resp status2 body2 =>
        if status2 = 200 then parseKeys body2
        else if status2 = 404 then Except.error VErr.notFound
        else Except.error (VErr.api (toString status2))
    else Except.error (VErr.api (toString status))

/-- C7: for every path whose `?list=1` request returns 404, `List` falls
back to a plain read at that exact path: a 404 there yields the
distinguished `NotFound` condition, and a 200 there (the path exists as a
leaf, whose well-formed body carries no `data.keys`) yields zero
children. -/
theorem list_404_fallback (H : HttpOracle) (path : String) (b : VBody)
    (hlist : H true path = HResp.resp 404 b) :
    (∀ b2, H false path = HResp.resp 404 b2 →
        ListV H path = Except.error VErr.notFound)
    ∧ (∀ b2, H false path = HResp.resp 200 b2 → b2.malformed = false →
        b2.keys = none → ListV H path = Except.ok []) := by
  constructor
  · intro b2 hread
    simp [ListV, hlist, hread]
  · intro b2 hread hm hk
    simp [ListV, hlist, hread, parseKeys, hm, hk]

/-- A backend where the listing of `a` 404s and the plain read of `a`
finds a leaf secret. -/
def demoLeafH : HttpOracle := fun isList p =>
  if isList then HResp.resp 404 (VBody.mk false none none)
  else if p = "a" then HResp.resp 200 (VBody.mk false (some [("k", "v")]) none)
  else HResp.resp 404 (VBody.mk false none none)

theorem list_404_fallback_witness :
    ListV demoLeafH "b" = Except.error VErr.notFound ∧
      ListV demoLeafH "a" = Except.ok [] := by
  constructor
  · exact (list_404_fallback demoLeafH "b" (VBody.mk false none none)
      (by rfl)).1 (VBody.mk false none none) (by rfl)
  · exact (list_404_fallback demoLeafH "a" (VBody.mk false none none)
      (by rfl)).2 (VBody.mk false (some [("k", "v")]) none) (by rfl) rfl rfl

/-- The pair decoding of `Vault.Read` (part_000 lines 171-196): an
unmarshal failure or a missing/non-object `data` entry is the malformed
response error; otherwise the entries are kept subject to the
`keepKey` filter taken from the path's colon selector. -/
def parsePairs (key? : Option String) (b : VBody) : Except VErr Secret :=
  if b.malformed then Except.error VErr.malformed
  else
    match b.pairs with
    | none => Except.error VErr.malformed
    | some data => Except.ok (data.filter (fun kv => keepKey key? kv.1))

/-- `Vault.Read` (part_000 lines 138-197) at the HTTP level: split the
path at its FIRST colon (`strings.SplitN(path, ":", 2)`), `GET` the part
before it, turn 404 into the `NotFound` sentinel and other non-200
statuses into API errors, and filter the decoded pairs by the key
selector after the colon. -/
def ReadV (H : HttpOracle) (path : String) : Except VErr Secret :=
  let pk := splitColon path
  match H false pk.1 with
  | HResp.fail m => Except.error (VErr.transport m)
  | HResp.resp status body =>
    if status = 200 then parsePairs pk.2 body
    else if status = 404 then Except.error VErr.notFound
    else Except.error (VErr.api (toString status))

/-- The last colon-delimited segment of a path (what the claim, read
literally, designates as the key selector). -/
def lastColonSeg (p : String) : String :=
  String.mk ((p.data.reverse.takeWhile (fun c => c ≠ ':')).reverse)

/-- A backend for the multi-colon counterexample: the secret at path `a`
has the single key `b:c`; the path `a:b` holds a secret with key `c`. -/
def demoColonH : HttpOracle := fun isList p =>
  if isList then HResp.resp 404 (VBody.mk false none none)
  else if p = "a" then HResp.resp 200 (VBody.mk false (some [("b:c", "v")]) none)
  else if p = "a:b" then
    HResp.resp 200 (VBody.mk false (some [("c", "w")]) none)
  else HResp.resp 404 (VBody.mk false none none)

/-- C8 counterexample: on the path `a:b:c`, `Read` splits at the FIRST
colon — it reads path `a` and selects key `b:c` — so the returned secret's
only key is `b:c`, not the last colon-delimited segment `c`; in
particular the result is not the key `c` of the secret at `a:b` either.
This refutes the claim that the LAST colon-delimited segment selects the
key. -/
theorem read_colon_counterexample :
    ReadV demoColonH "a:b:c" = Except.ok [("b:c", "v")] ∧
      lastColonSeg "a:b:c" = "c" ∧
      ¬ ("b:c" : String) = "c" ∧
      ¬ ReadV demoColonH "a:b:c" = Except.ok [("c", "w")] := by
  refine ⟨by rfl, by rfl, by decide, by decide⟩

/-- C8 (amended): for every path containing a colon, the portion after
the FIRST colon — the whole remainder, which may itself contain further
colons — selects a single key within the secret at the part before that
colon: a successful `Read` returns a secret containing only the pairs
whose key equals that remainder (which is the filter of the decoded body
by that key). -/
theorem read_key_selection (H : HttpOracle) (path key : String)
    (hsplit : (splitColon path).2 = some key) (hkey : key ≠ "") :
    ∀ s, ReadV H path = Except.ok s →
      (∀ kv ∈ s, kv.1 = key) ∧
      ∀ body data, H false (splitColon path).1 = HResp.resp 200 body →
        body.malformed = false → body.pairs = some data →
        s = data.filter (fun kv => decide (kv.1 = key)) := by
  intro s hres
  have hfilter : ∀ (kv : String × String), keepKey (some key) kv.1 = decide (kv.1 = key) := by
    intro kv
    simp only [keepKey, decide_not]
    by_cases hk : kv.1 = key
    · simp [hk, hkey]
    · simp [hk, hkey]
  simp only [ReadV, hsplit] at hres
  cases hH : H false (splitColon path).1 with
  | fail m => rw [hH] at hres; cases hres
  | resp status body =>
    rw [hH] at hres
    dsimp only at hres
    by_cases h200 : status = 200
    · rw [if_pos h200] at hres
      simp only [parsePairs] at hres
      by_cases hm : body.malformed = true
      · rw [if_pos hm] at hres; cases hres
      · rw [if_neg hm] at hres
        cases hpairs : body.pairs with
        | none => rw [hpairs] at hres; cases hres
        | some data =>
          rw [hpairs] at hres
          cases hres
          constructor
          · intro kv hkv
            have hmem := List.of_mem_filter hkv
            rw [hfilter kv] at hmem
            exact of_decide_eq_true hmem
          · intro body2 data2 hH2 hm2 hp2
            injection hH2 with hs hb
            subst hb
            rw [hpairs] at hp2
            injection hp2 with hd
            subst hd
            exact List.filter_congr (fun kv _ => hfilter kv)
    · rw [if_neg h200] at hres
      by_cases h404 : status = 404
      · rw [if_pos h404] at hres; cases hres
      · rw [if_neg h404] at hres; cases hres

theorem read_key_selection_witness :
    (∀ kv ∈ [(("b:c" : String), ("v" : String))], kv.1 = "b:c") ∧
      ∀ body data,
        demoColonH false (splitColon "a:b:c").1 = HResp.resp 200 body →
        body.malformed = false → body.pairs = some data →
        [(("b:c" : String), ("v" : String))] =
          data.filter (fun kv => decide (kv.1 = "b:c")) :=
  read_key_selection demoColonH "a:b:c" "b:c" (by rfl) (by decide)
    [("b:c", "v")] (by rfl)

/-- The cached seal state of one member: `struct seal { Sealed bool;
Threshold int }` (part_000 lines 19-22). -/
structure Seal where
  sealed : Bool
  threshold : Nat
  deriving DecidableEq, Repr

/-- The outcome of the `GET /v1/sys/seal-status` request issued by
`checkSealStatus`: a request-level failure, or a status code together
with the fate of reading and unmarshalling the body (`readFail` for the
`ioutil.ReadAll` error, `malformed` for the `json.Unmarshal` error) and,
when both succeed, the decoded state. -/
inductive SealResp where
  | fail (msg : String) : SealResp
  | resp (status : Nat) (readFail : Bool) (malformed : Bool) (s : Seal) : SealResp

/-- `Vault.checkSealStatus` (part_000 lines 564-586) as a transformer of
the cached `v.seal` pointer (`none` = nil).  With a cache present it does
nothing.  Otherwise: a request error returns early with the cache still
nil; a 200 whose body fails to read or unmarshal also returns early with
the cache still nil; a 200 that decodes caches the decoded state; and any
non-200 status skips the body entirely and caches the zero value
`{sealed: false, threshold: 0}`. -/
def checkSealStatus (r : SealResp) : Option Seal → Option Seal
  | some s => some s
  | none =>
    match r with
    | SealResp.fail _ => none
    | SealResp.resp status readFail malformed s =>
      if status = 200 then
        if readFail then none
        else if malformed then none
        else some s
      else some (Seal.mk false 0)

/-- `Vault.Sealed` (part_000 lines 588-591): refresh the cache, then
dereference `v.seal.Sealed`.  A `none` second component models the nil
pointer dereference — a runtime panic, not an error return. -/
def SealedQ (r : SealResp) (cur : Option Seal) : Option Seal × Option Bool :=
  let st := checkSealStatus r cur
  (st, st.map Seal.sealed)

/-- `Vault.SealThreshold` (part_000 lines 593-596): refresh the cache,
then dereference `v.seal.Threshold`.  A `none` second component models
the nil pointer dereference panic. -/
def SealThresholdQ (r : SealResp) (cur : Option Seal) :
    Option Seal × Option Nat :=
  let st := checkSealStatus r cur
  (st, st.map Seal.threshold)

/-- C10: when the seal-status HTTP request fails at the transport level,
`checkSealStatus` returns leaving the cached seal state nil, so `Sealed`
and `SealThreshold` dereference a nil pointer (modelled as `none`, a
panic rather than an error return); whereas a non-200 status silently
caches the zero state `sealed = false, threshold = 0`, which the
accessors then happily report. -/
theorem checkSealStatus_nil_panic (r : SealResp) :
    (∀ m, r = SealResp.fail m →
        checkSealStatus r none = none ∧
        (SealedQ r none).2 = none ∧ (SealThresholdQ r none).2 = none)
    ∧ (∀ status readFail malformed s,
        r = SealResp.resp status readFail malformed s → status ≠ 200 →
        checkSealStatus r none = some (Seal.mk false 0) ∧
        (SealedQ r none).2 = some false ∧
        (SealThresholdQ r none).2 = some 0) := by
  constructor
  · intro m hr
    subst hr
    exact ⟨rfl, rfl, rfl⟩
  · intro status readFail malformed s hr h200
    subst hr
    have hc : checkSealStatus (SealResp.resp status readFail malformed s) none
        = some (Seal.mk false 0) := by
      simp only [checkSealStatus, if_neg h200]
    refine ⟨hc, ?_, ?_⟩
    · simp only [SealedQ, hc, Option.map_some]
      rfl
    · simp only [SealThresholdQ, hc, Option.map_some]
      rfl

theorem checkSealStatus_nil_panic_witness :
    (checkSealStatus (SealResp.fail ("connection refused")) none = none ∧
        (SealedQ (SealResp.fail ("connection refused")) none).2 = none ∧
        (SealThresholdQ (SealResp.fail ("connection refused")) none).2 = none)
    ∧ (checkSealStatus (SealResp.resp 503 false false (Seal.mk true 5)) none
          = some (Seal.mk false 0) ∧
        (SealedQ (SealResp.resp 503 false false (Seal.mk true 5)) none).2
          = some false ∧
        (SealThresholdQ (SealResp.resp 503 false false (Seal.mk true 5))
            none).2 = some 0) :=
  ⟨(checkSealStatus_nil_panic (SealResp.fail ("connection refused"))).1
      ("connection refused") rfl,
    (checkSealStatus_nil_panic (SealResp.resp 503 false false
        (Seal.mk true 5))).2 503 false false (Seal.mk true 5) rfl
      (by decide)⟩

/-- Modelled from the spec: `Vault.CheckSeal`, which the unseal dispatch
calls per member, is code of this repository not under src/ (part_000
carries only the older cached accessors).  Per §4.4 unseal step 2 it
queries one member's seal status `{sealed, threshold}`; the oracle yields
that pair, or the error on which the dispatch aborts. -/
abbrev CheckSealOracle := String → Except String (Bool × Nat)

/-- One observable action of the unseal workflow: prompting for the
`i`-th seal key share, or submitting a share list to one member's unseal
endpoint. -/
inductive UEvent where
  | prompt (i : Nat) : UEvent
  | unseal (addr : String) (keys : List String) : UEvent
  deriving DecidableEq, Repr

/-- The member loop of the `unseal` dispatch (main.go lines 352-369),
carrying the accumulated `keys` slice: query the member's seal status
(an error aborts); skip it when not sealed; when sealed and `keys` is
still empty, prompt for exactly `threshold` shares (the `i`-th prompt
returning `share i`); then submit the share list to the member.  Returns
the event trace, the final `keys`, and the error, if any. -/
def unsealLoop (cs : CheckSealOracle) (share : Nat → String) :
    List String → List String → List UEvent × List String × Option String
  | [], keys => ([], keys, none)
  | v :: rest, keys =>
    match cs v with
    | Except.error e => ([], keys, some e)
    | Except.ok st =>
      if st.1 then
        let keys2 := if keys.length = 0 then (List.range st.2).map share else keys
        let prompts : List UEvent :=
          if keys.length = 0 then (List.range st.2).map UEvent.prompt else []
        let r := unsealLoop cs share rest keys2
        (prompts ++ UEvent.unseal v keys2 :: r.1, r.2)
      else unsealLoop cs share rest keys

/-- The `unseal` dispatch (main.go lines 341-377), after argument
validation: no configured backends is the "No backends detected" error;
otherwise run the member loop starting from an empty `keys` slice and
report "Unsealed the Vault(s)" when keys were collected, or
"Vaults are already unsealed; taking no action." when no member was ever
sealed. -/
def unsealCmd (cs : CheckSealOracle) (share : Nat → String)
    (backends : List String) : List UEvent × Except String String :=
  if backends.length = 0 then ([], Except.error ("No backends detected"))
  else
    let r := unsealLoop cs share backends []
    match r.2.2 with
    | some e => (r.1, Except.error e)
    | none =>
      if r.2.1.length ≠ 0 then (r.1, Except.ok ("Unsealed the Vault(s)"))
      else (r.1, Except.ok ("Vaults are already unsealed; taking no action."))

/-- The submissions the loop performs once shares are in hand: one unseal
call with the same `shares` list for each still-sealed member, in
order. -/
def expectedSealedOps (cs : CheckSealOracle) (shares : List String) :
    List String → List UEvent
  | [] => []
  | x :: xs =>
    (match cs x with
     | Except.ok (true, _) => [UEvent.unseal x shares]
     | _ => []) ++ expectedSealedOps cs shares xs

theorem unsealLoop_skip (cs : CheckSealOracle) (share : Nat → String) :
    ∀ (pre rest : List String) (keys : List String),
      (∀ x ∈ pre, ∃ t, cs x = Except.ok (false, t)) →
      unsealLoop cs share (pre ++ rest) keys = unsealLoop cs share rest keys := by
  intro pre
  induction pre with
  | nil => intro rest keys _; rfl
  | cons x xs ih =>
    intro rest keys hall
    obtain ⟨t, ht⟩ := hall x (List.mem_cons_self _ _)
    simp only [List.cons_append, unsealLoop, ht]
    exact ih rest keys (fun y hy => hall y (List.mem_cons_of_mem _ hy))

theorem unsealLoop_shares_in_hand (cs : CheckSealOracle) (share : Nat → String) :
    ∀ (post : List String) (keys : List String), keys.length ≠ 0 →
      (∀ x ∈ post, ∃ b t, cs x = Except.ok (b, t)) →
      unsealLoop cs share post keys =
        (expectedSealedOps cs keys post, keys, none) := by
  intro post
  induction post with
  | nil => intro keys _ _; rfl
  | cons x xs ih =>
    intro keys hk hall
    obtain ⟨b, t, ht⟩ := hall x (List.mem_cons_self _ _)
    have htail := ih keys hk (fun y hy => hall y (List.mem_cons_of_mem _ hy))
    cases b with
    | false =>
      simp only [unsealLoop, ht, expectedSealedOps, htail]
      simp
    | true =>
      simp only [unsealLoop, ht, expectedSealedOps, if_neg hk, htail]
      simp

/-- C9 (amended): for every list of configured backend members whose
status queries all succeed, the unseal workflow queries each member in
order, skips the ones already unsealed, and — when no member was ever
sealed — reports "already unsealed; taking no action" without ever
prompting; when some member is sealed and the FIRST sealed member reports
a positive threshold, the workflow prompts for exactly that member's
`threshold` shares there and only there, and submits that same unmodified
share list to every sealed member's unseal endpoint. -/
theorem unseal_workflow (cs : CheckSealOracle) (share : Nat → String) :
    (∀ backends : List String, backends ≠ [] →
      (∀ x ∈ backends, ∃ t, cs x = Except.ok (false, t)) →
      unsealCmd cs share backends =
        ([], Except.ok ("Vaults are already unsealed; taking no action.")))
    ∧ (∀ (pre : List String) (m : String) (post : List String) (tm : Nat),
      (∀ x ∈ pre, ∃ t, cs x = Except.ok (false, t)) →
      cs m = Except.ok (true, tm) → 0 < tm →
      (∀ x ∈ post, ∃ b t, cs x = Except.ok (b, t)) →
      unsealCmd cs share (pre ++ m :: post) =
        ((List.range tm).map UEvent.prompt
            ++ UEvent.unseal m ((List.range tm).map share)
              :: expectedSealedOps cs ((List.range tm).map share) post,
          Except.ok ("Unsealed the Vault(s)"))) := by
  constructor
  · intro backends hne hall
    have hlen : ¬ backends.length = 0 := by
      cases backends with
      | nil => exact absurd rfl hne
      | cons a l => simp
    have h1 : unsealLoop cs share (backends ++ []) [] =
        unsealLoop cs share [] [] :=
      unsealLoop_skip cs share backends [] [] hall
    rw [List.append_nil] at h1
    simp [unsealCmd, if_neg hlen, h1, unsealLoop]
    exact hne
  · intro pre m post tm hpre hm htm hpost
    have hlen0 : ¬ (pre ++ m :: post).length = 0 := by simp
    have h1 := unsealLoop_skip cs share pre (m :: post) [] hpre
    have hkeys2 : ((List.range tm).map share).length ≠ 0 := by
      simp only [List.length_map, List.length_range]
      omega
    have h3 := unsealLoop_shares_in_hand cs share post
      ((List.range tm).map share) hkeys2 hpost
    have h2 : unsealLoop cs share (m :: post) [] =
        ((List.range tm).map UEvent.prompt
            ++ UEvent.unseal m ((List.range tm).map share)
              :: expectedSealedOps cs ((List.range tm).map share) post,
          (List.range tm).map share, none) := by
      simp only [unsealLoop, hm]
      simp [h3]
    simp only [unsealCmd, if_neg hlen0, h1, h2]
    simp [hkeys2]
    omega

/-- Canned prompt answers for the unseal runs. -/
def demoShare : Nat → String := fun i => if i = 0 then "k0" else "k1"

/-- Statuses for the witness run: `u1` and the default are unsealed, `m`
is sealed with threshold 2, `u2` sealed with threshold 9. -/
def demoSeal2 : CheckSealOracle := fun v =>
  if v = "u1" then Except.ok (false, 3)
  else if v = "m" then Except.ok (true, 2)
  else if v = "u2" then Except.ok (true, 9)
  else Except.ok (false, 1)

theorem unseal_workflow_witness :
    unsealCmd demoSeal2 demoShare ["u1", "z"] =
        ([], Except.ok ("Vaults are already unsealed; taking no action.")) ∧
      unsealCmd demoSeal2 demoShare ["u1", "m", "u2", "z"] =
        ([UEvent.prompt 0, UEvent.prompt 1,
            UEvent.unseal "m" ["k0", "k1"], UEvent.unseal "u2" ["k0", "k1"]],
          Except.ok ("Unsealed the Vault(s)")) := by
  constructor
  · exact (unseal_workflow demoSeal2 demoShare).1 ["u1", "z"] (by decide)
      (by
        intro x hx
        rcases List.mem_cons.mp hx with h | h
        · subst h; exact ⟨3, rfl⟩
        · have hz : x = "z" := by simpa using h
          subst hz; exact ⟨1, rfl⟩)
  · have h := (unseal_workflow demoSeal2 demoShare).2 ["u1"] "m" ["u2", "z"] 2
      (by
        intro x hx
        have hu : x = "u1" := by simpa using hx
        subst hu; exact ⟨3, rfl⟩)
      rfl (by decide)
      (by
        intro x hx
        rcases List.mem_cons.mp hx with h | h
        · subst h; exact ⟨true, 9, rfl⟩
        · have hz : x = "z" := by simpa using h
          subst hz; exact ⟨false, 1, rfl⟩)
    exact h.trans (by rfl)

/-- Statuses for the zero-threshold counterexample: `m1` is sealed with
threshold 0, `m2` (and everyone else) sealed with threshold 2. -/
def demoSealStatus : CheckSealOracle := fun v =>
  if v = "m1" then Except.ok (true, 0) else Except.ok (true, 2)

/-- C9 counterexample: with members `[m1, m2]`, where the first sealed
member `m1` reports threshold 0, the workflow submits the empty share
list to `m1` and then prompts — twice — at the SECOND sealed member `m2`,
submitting `["k0", "k1"] ≠ []` there: prompting is not confined to the
first sealed member encountered, and the share list is not the same for
every sealed member, contradicting the claim as stated. -/
theorem unseal_zero_threshold_counterexample :
    demoSealStatus "m1" = Except.ok (true, 0) ∧
      unsealCmd demoSealStatus demoShare ["m1", "m2"] =
        ([UEvent.unseal "m1" [], UEvent.prompt 0, UEvent.prompt 1,
            UEvent.unseal "m2" ["k0", "k1"]],
          Except.ok ("Unsealed the Vault(s)")) ∧
      ¬ (["k0", "k1"] : List String) = [] := by
  refine ⟨rfl, by rfl, by decide⟩

end Safe
